import Mathlib

/-
  Verification of the MicroScript native bridge (Magayaga/MicroScript).

  The repository ships three C files: a JNI bridge to an HTTP/WebSocket
  engine (src/microscript_http.c), console I/O natives
  (src/microscript_io.c), and math wrappers.  The engine itself
  (httpserver.h, Go via CGO) is not part of src/, so its behaviour is
  modelled from the specification; the bridge and the I/O natives are
  embedded from the C source.  Strings crossing the boundary are modelled
  as byte lists (List Nat, each element < 256); C `int`/`jint` values are
  modelled as mathematical integers with explicit 32-bit wrapping where a
  conversion occurs in the source.
-/

namespace MicroScript

/-! ### Codec: percent-encoding and percent-decoding -/

/-- Modelled from the spec: the engine's `urlEncode` (§2 Codec, §8) is
standard percent-encoding.  A byte is left intact exactly when it is an
unreserved URI byte: ASCII letter, digit, or one of `- . _ ~`. -/
def isUnreserved (b : Nat) : Bool :=
  (65 ≤ b && b ≤ 90) || (97 ≤ b && b ≤ 122) || (48 ≤ b && b ≤ 57) ||
    b == 45 || b == 46 || b == 95 || b == 126

/-- Uppercase hexadecimal digit for a value below 16. -/
def hexDigit (n : Nat) : Nat := if n < 10 then 48 + n else 55 + n

/-- Modelled from the spec: percent-encoding over the bytes of a string.
Unreserved bytes pass through; every other byte `b` becomes
`% hex(b/16) hex(b%16)`. -/
def urlEncode : List Nat → List Nat
  | [] => []
  | b :: rest =>
      (if isUnreserved b then [b] else [37, hexDigit (b / 16), hexDigit (b % 16)]) ++
        urlEncode rest

/-- Value of a hexadecimal digit byte (accepting both cases), or `none`. -/
def hexVal (c : Nat) : Option Nat :=
  if 48 ≤ c ∧ c ≤ 57 then some (c - 48)
  else if 65 ≤ c ∧ c ≤ 70 then some (c - 55)
  else if 97 ≤ c ∧ c ≤ 102 then some (c - 87)
  else none

/-- Modelled from the spec: percent-decoding.  A `%` followed by two hex
digits becomes the denoted byte; any other byte (and a malformed escape)
passes through unchanged. -/
def urlDecode : List Nat → List Nat
  | [] => []
  | 37 :: h :: l :: rest =>
      match hexVal h, hexVal l with
      | some hv, some lv => (16 * hv + lv) :: urlDecode rest
      | _, _ => 37 :: urlDecode (h :: l :: rest)
  | b :: rest => b :: urlDecode rest

/-- Bytes of an ASCII string literal, used for concrete test inputs. -/
def ascii (s : String) : List Nat := s.data.map Char.toNat

lemma hexVal_hexDigit {n : Nat} (h : n < 16) : hexVal (hexDigit n) = some n := by
  interval_cases n <;> decide

lemma urlDecode_cons_of_ne {b : Nat} (xs : List Nat) (h : b ≠ 37) :
    urlDecode (b :: xs) = b :: urlDecode xs := by
  match xs with
  | [] => simp [urlDecode]
  | [x] => simp [urlDecode]
  | x :: y :: rest =>
    rw [urlDecode]
    · omega

lemma isUnreserved_ne_percent {b : Nat} (h : isUnreserved b = true) : b ≠ 37 := by
  simp only [isUnreserved, Bool.or_eq_true, Bool.and_eq_true, decide_eq_true_eq,
    beq_iff_eq] at h
  omega

/-! ### I/O natives (embedded from src/microscript_io.c) -/

/-- The C conversion `(unsigned char) code` on a `jint`: reduction modulo
256 (Euclidean, so the result is the nonnegative residue). -/
def ucharOfJint (code : Int) : Nat := (code % 256).toNat

/-- Embeds `Java_com_magayaga_microscript_NativeIo_print__I`: the byte
sequence the native writes to stdout for integer argument `code`. -/
def printIntBytes (code : Int) : List Nat := [ucharOfJint code]

/-- Embeds `Java_com_magayaga_microscript_NativeIo_println__I`: the byte
written by the cast, then a newline byte. -/
def printlnIntBytes (code : Int) : List Nat := [ucharOfJint code, 10]

/-! ### C2: percent-decoding is a left inverse of percent-encoding -/

/-- C2: for every byte string `S`, `urlDecode (urlEncode S) = S`; in
particular the round-trip holds for the byte sequences of printable-ASCII
and UTF-8 strings, whose bytes are below 256. -/
theorem urlDecode_urlEncode (S : List Nat) (hS : ∀ b ∈ S, b < 256) :
    urlDecode (urlEncode S) = S := by
  induction S with
  | nil => rfl
  | cons b rest ih =>
    have hb : b < 256 := hS b (List.mem_cons_self b rest)
    have hrest : ∀ x ∈ rest, x < 256 := fun x hx => hS x (List.mem_cons_of_mem b hx)
    by_cases hu : isUnreserved b = true
    · rw [urlEncode, if_pos hu, List.singleton_append,
        urlDecode_cons_of_ne _ (isUnreserved_ne_percent hu), ih hrest]
    · rw [urlEncode, if_neg hu]
      have hdiv : b / 16 < 16 := by omega
      have hmod : b % 16 < 16 := Nat.mod_lt b (by omega)
      show urlDecode (37 :: hexDigit (b / 16) :: hexDigit (b % 16) :: urlEncode rest) =
        b :: rest
      rw [urlDecode, hexVal_hexDigit hdiv, hexVal_hexDigit hmod]
      show (16 * (b / 16) + b % 16) :: urlDecode (urlEncode rest) = b :: rest
      rw [Nat.div_add_mod, ih hrest]

/-- Witness for C2 at a concrete input containing a space, a percent sign
and a non-ASCII byte. -/
theorem urlDecode_urlEncode_spot :
    urlDecode (urlEncode [104, 32, 37, 255, 65]) = [104, 32, 37, 255, 65] :=
  urlDecode_urlEncode [104, 32, 37, 255, 65] (by decide)

/-! ### C10: integer print natives write one byte, reduced modulo 256 -/

/-- C10: `print__I` writes exactly one byte, whose value is `code mod 256`
(the `jint` is truncated by the cast to `unsigned char`); `println__I`
writes that same byte followed by a newline; out-of-range values are
reduced modulo 256 rather than rejected, as the concrete instances
`print(65) = [65]`, `print(321) = [65]`, `print(-1) = [255]` show. -/
theorem printIntBytes_mod256 :
    (∀ code : Int, printIntBytes code = [(code % 256).toNat] ∧
      (printIntBytes code).length = 1 ∧
      (code % 256).toNat < 256 ∧
      printlnIntBytes code = printIntBytes code ++ [10]) ∧
    printIntBytes 65 = [65] ∧ printIntBytes 321 = [65] ∧ printIntBytes (-1) = [255] := by
  refine ⟨fun code => ⟨rfl, rfl, ?_, rfl⟩, by decide, by decide, by decide⟩
  have h1 : 0 ≤ code % 256 := Int.emod_nonneg code (by decide)
  have h2 : code % 256 < 256 := Int.emod_lt_of_pos code (by decide)
  omega

/-! ### C9: the JNI bridge is a pure pass-through

The engine behind `httpserver.h` is external to the bridge, so it is a
parameter here: a record of the engine entry points the bridge calls.
Void engine calls produce an abstract effect value of type `α`, which the
bridge returns untouched.  A C `int`/`jint` is a 32-bit two's-complement
value; the cast `(int) x` is embedded as wrapping into
`[-2^31, 2^31)`. -/

/-- Two's-complement wrapping of an integer into the 32-bit range,
embedding the C casts between `jint` and `int`. -/
def wrap32 (x : Int) : Int := (x + 2 ^ 31) % 2 ^ 32 - 2 ^ 31

/-- The 32-bit value range of `jint` / C `int`. -/
def isInt32 (x : Int) : Prop := -(2 ^ 31) ≤ x ∧ x < 2 ^ 31

lemma wrap32_eq_self {x : Int} (h : isInt32 x) : wrap32 x = x := by
  obtain ⟨h1, h2⟩ := h
  unfold wrap32
  omega

/-- The engine entry points used by the bridge functions under study, as
declared by `httpserver.h`: `createServer` and `isRunning` return C
`int`; the void ones produce an abstract effect of type `α`. -/
structure EngineAPI (α : Type) where
  createServer : Int → Int
  isRunning : Int → Int
  addRoute : Int → List Nat → List Nat → List Nat → α
  stopServer : Int → α
  sendWebSocketMessage : Int → List Nat → List Nat → α

/-- Embeds `Java_com_magayaga_microscript_NativeHttp_createServer`:
`return createServer((int)port);` — the `jint` argument is cast to C
`int`, the engine is called, and its `int` result is returned as `jint`. -/
def jniCreateServer {α : Type} (eng : EngineAPI α) (port : Int) : Int :=
  wrap32 (eng.createServer (wrap32 port))

/-- Embeds `Java_com_magayaga_microscript_NativeHttp_isRunning`:
`return isRunning((int)serverHandle) ? JNI_TRUE : JNI_FALSE;`. -/
def jniIsRunning {α : Type} (eng : EngineAPI α) (serverHandle : Int) : Bool :=
  if eng.isRunning (wrap32 serverHandle) ≠ 0 then true else false

/-- Embeds `Java_com_magayaga_microscript_NativeHttp_addRoute`: the three
`jstring` arguments are decoded to UTF-8 byte strings and handed to the
engine together with the cast handle; the wrapper returns nothing beyond
the engine's effect. -/
def jniAddRoute {α : Type} (eng : EngineAPI α) (serverHandle : Int)
    (method path handlerName : List Nat) : α :=
  eng.addRoute (wrap32 serverHandle) method path handlerName

/-- Embeds `Java_com_magayaga_microscript_NativeHttp_stopServer`:
`stopServer((int)serverHandle);`. -/
def jniStopServer {α : Type} (eng : EngineAPI α) (serverHandle : Int) : α :=
  eng.stopServer (wrap32 serverHandle)

/-- Embeds `Java_com_magayaga_microscript_NativeHttp_sendWebSocketMessage`:
decodes the two strings and forwards them with the cast endpoint handle. -/
def jniSendWebSocketMessage {α : Type} (eng : EngineAPI α) (endpointHandle : Int)
    (clientId message : List Nat) : α :=
  eng.sendWebSocketMessage (wrap32 endpointHandle) clientId message

/-- Refinement target, following the spec's words: the bridge operation is
the engine's `createServer` applied to the argument unchanged. -/
def passCreateServer {α : Type} (eng : EngineAPI α) (port : Int) : Int :=
  eng.createServer port

/-- Refinement target: true exactly when the engine's `isRunning` is
nonzero on the unchanged handle. -/
def passIsRunning {α : Type} (eng : EngineAPI α) (serverHandle : Int) : Bool :=
  eng.isRunning serverHandle != 0

/-- Refinement target: the engine's `addRoute` on the unchanged arguments. -/
def passAddRoute {α : Type} (eng : EngineAPI α) (serverHandle : Int)
    (method path handlerName : List Nat) : α :=
  eng.addRoute serverHandle method path handlerName

/-- Refinement target: the engine's `stopServer` on the unchanged handle. -/
def passStopServer {α : Type} (eng : EngineAPI α) (serverHandle : Int) : α :=
  eng.stopServer serverHandle

/-- Refinement target: the engine's `sendWebSocketMessage` on the
unchanged arguments. -/
def passSendWebSocketMessage {α : Type} (eng : EngineAPI α) (endpointHandle : Int)
    (clientId message : List Nat) : α :=
  eng.sendWebSocketMessage endpointHandle clientId message

/-- C9: for every engine and all in-range (32-bit) integer arguments, each
embedded bridge wrapper equals the corresponding direct engine call on the
unchanged arguments — `createServer` provided the engine's result is
itself a valid C `int` — and `isRunning` is true iff the engine's
`isRunning` is nonzero. -/
theorem bridge_pass_through {α : Type} (eng : EngineAPI α) (p h : Int)
    (m pa hn cid msg : List Nat)
    (hp : isInt32 p) (hh : isInt32 h) (hres : isInt32 (eng.createServer p)) :
    jniCreateServer eng p = passCreateServer eng p ∧
    jniIsRunning eng h = passIsRunning eng h ∧
    jniAddRoute eng h m pa hn = passAddRoute eng h m pa hn ∧
    jniStopServer eng h = passStopServer eng h ∧
    jniSendWebSocketMessage eng h cid msg = passSendWebSocketMessage eng h cid msg ∧
    (jniIsRunning eng h = true ↔ eng.isRunning h ≠ 0) := by
  refine ⟨?_, ?_, ?_, ?_, ?_, ?_⟩
  · rw [jniCreateServer, wrap32_eq_self hp, wrap32_eq_self hres, passCreateServer]
  · rw [jniIsRunning, wrap32_eq_self hh, passIsRunning]
    by_cases hz : eng.isRunning h = 0 <;> simp [hz]
  · rw [jniAddRoute, wrap32_eq_self hh, passAddRoute]
  · rw [jniStopServer, wrap32_eq_self hh, passStopServer]
  · rw [jniSendWebSocketMessage, wrap32_eq_self hh, passSendWebSocketMessage]
  · rw [jniIsRunning, wrap32_eq_self hh]
    by_cases hz : eng.isRunning h = 0 <;> simp [hz]

/-- Witness for C9 on a concrete engine instance and concrete arguments. -/
theorem bridge_pass_through_spot :
    jniCreateServer (EngineAPI.mk (fun x => x + 1) (fun _ => 1)
      (fun _ _ _ _ => (0 : Nat)) (fun _ => 1) (fun _ _ _ => 2)) 8080 =
    passCreateServer (EngineAPI.mk (fun x => x + 1) (fun _ => 1)
      (fun _ _ _ _ => (0 : Nat)) (fun _ => 1) (fun _ _ _ => 2)) 8080 :=
  (bridge_pass_through (EngineAPI.mk (fun x => x + 1) (fun _ => 1)
      (fun _ _ _ _ => (0 : Nat)) (fun _ => 1) (fun _ _ _ => 2)) 8080 3 [] [] [] [] []
    (by constructor <;> decide) (by constructor <;> decide)
    (by constructor <;> decide)).1

/-! ### HandleTable and server lifecycle (engine model for C4, C5) -/

/-- Outcomes of engine operations (spec §7 error taxonomy, restricted to
the conditions the claims mention). -/
inductive HttpError
  | InvalidHandle
  | ResponseAlreadySent
  deriving DecidableEq

/-- Modelled from the spec (§4.4): the externally observable lifecycle
states of a server object held in the handle table.  `createServer` binds
and immediately transitions to `Listening`; `stopServer` releases the
handle, so `Stopped` servers are no longer resolvable. -/
inductive ServerLifecycle
  | Listening
  | Stopped
  deriving DecidableEq

/-- Modelled from the spec (§3): the per-server state the claims observe —
its port and lifecycle state. -/
structure Srv where
  port : Nat
  lifecycle : ServerLifecycle
  deriving DecidableEq

/-- Modelled from the spec (§4.1 HandleTable): an arena of slots, each a
live object (or `none` after release) together with its generation
counter.  Missing engine source: `httpserver.h` is Go code outside
`src/`. -/
structure HTable where
  slots : List (Option Srv × Nat)
  deriving DecidableEq

/-- A handle packs a slot index and the generation observed at allocation
into one opaque integer. -/
def encodeHandle (idx gen : Nat) : Nat := Nat.pair idx gen

/-- Modelled from the spec: `resolve(handle) -> object or InvalidHandle` —
the handle resolves only if its slot is live and the generations agree. -/
def resolveHandle (t : HTable) (h : Nat) : Option Srv :=
  match t.slots[(Nat.unpair h).1]? with
  | some (some s, g) => if g = (Nat.unpair h).2 then some s else none
  | _ => none

/-- Index of the first free (released) slot, if any. -/
def freeIdx : List (Option Srv × Nat) → Option Nat
  | [] => none
  | (none, _) :: _ => some 0
  | (some _, _) :: rest => (freeIdx rest).map (fun i => i + 1)

/-- Modelled from the spec: `allocate(obj) -> handle` — reuse the first
released slot, keeping its (already incremented) generation, or append a
fresh slot at generation 0. -/
def allocateHandle (t : HTable) (s : Srv) : HTable × Nat :=
  match freeIdx t.slots with
  | some i =>
      let g := ((t.slots[i]?).map Prod.snd).getD 0
      (⟨t.slots.set i (some s, g)⟩, encodeHandle i g)
  | none => (⟨t.slots ++ [(some s, 0)]⟩, encodeHandle t.slots.length 0)

/-- Modelled from the spec: `release(handle)` invalidates the slot and
increments its generation so a reused integer id from a future allocation
cannot collide with a stale caller-held handle. -/
def releaseHandle (t : HTable) (h : Nat) : HTable :=
  match t.slots[(Nat.unpair h).1]? with
  | some (some _, g) =>
      if g = (Nat.unpair h).2
      then ⟨t.slots.set (Nat.unpair h).1 (none, g + 1)⟩ else t
  | _ => t

/-- Modelled from the spec (§4.4): `createServer(port)` binds a listener,
transitions to `Listening` and returns a fresh handle from the table. -/
def createServer (t : HTable) (port : Nat) : HTable × Nat :=
  allocateHandle t ⟨port, ServerLifecycle.Listening⟩

/-- Modelled from the spec (§4.4): `isRunning(handle)` reports true only
in `Listening`; an unresolvable handle reports false. -/
def isRunning (t : HTable) (h : Nat) : Bool :=
  match resolveHandle t h with
  | some s => s.lifecycle == ServerLifecycle.Listening
  | none => false

/-- Modelled from the spec (§4.4, §7): `stopServer(handle)` tears the
server down and releases the handle; on a stale or unknown handle it is a
no-op reporting `InvalidHandle`. -/
def stopServer (t : HTable) (h : Nat) : HTable × Option HttpError :=
  match resolveHandle t h with
  | some _ => (releaseHandle t h, none)
  | none => (t, some HttpError.InvalidHandle)

/-- Handle-consuming engine operations that may run after a stop, for
stating handle-reuse safety over arbitrary continuations. -/
inductive EngineOp
  | create (port : Nat)
  | stop (h : Nat)

/-- One engine step: the table after running the operation. -/
def stepEngine (t : HTable) : EngineOp → HTable
  | EngineOp.create p => (createServer t p).1
  | EngineOp.stop h => (stopServer t h).1

/-- Run a sequence of engine operations from a table. -/
def runEngine (t : HTable) : List EngineOp → HTable
  | [] => t
  | op :: ops => runEngine (stepEngine t op) ops

/-- A handle is stale for a table when its slot exists but has moved past
the handle's generation. -/
def staleFor (t : HTable) (h : Nat) : Prop :=
  ∃ o g, t.slots[(Nat.unpair h).1]? = some (o, g) ∧ (Nat.unpair h).2 < g

lemma lt_length_of_getElem?_eq_some {α : Type} {l : List α} {i : Nat} {a : α}
    (h : l[i]? = some a) : i < l.length := by
  by_contra hc
  rw [List.getElem?_eq_none (by omega)] at h
  exact Option.noConfusion h

lemma freeIdx_spec {l : List (Option Srv × Nat)} {i : Nat} (h : freeIdx l = some i) :
    i < l.length ∧ ∃ g, l[i]? = some (none, g) := by
  induction l generalizing i with
  | nil => exact Option.noConfusion h
  | cons hd rest ih =>
    match hd with
    | (none, g) =>
      rw [freeIdx] at h
      cases h
      exact ⟨Nat.succ_pos _, g, by simp⟩
    | (some s, g) =>
      rw [freeIdx, Option.map_eq_some'] at h
      obtain ⟨j, hj, rfl⟩ := h
      obtain ⟨hlt, g', hg'⟩ := ih hj
      exact ⟨by simpa using hlt, g', by simpa using hg'⟩

lemma resolve_allocate (t : HTable) (s : Srv) :
    resolveHandle (allocateHandle t s).1 (allocateHandle t s).2 = some s := by
  cases hf : freeIdx t.slots with
  | some i =>
    obtain ⟨hlt, g, hg⟩ := freeIdx_spec hf
    simp only [allocateHandle, hf, hg, Option.map_some', Option.getD_some,
      resolveHandle, encodeHandle, Nat.unpair_pair]
    rw [List.getElem?_set_self (by simpa using hlt)]
    simp
  | none =>
    simp only [allocateHandle, hf, resolveHandle, encodeHandle, Nat.unpair_pair]
    rw [List.getElem?_concat_length]
    simp

lemma releaseHandle_gen_mono {t : HTable} {hh i : Nat} {o : Option Srv} {g : Nat}
    (h : t.slots[i]? = some (o, g)) :
    ∃ o' g', (releaseHandle t hh).slots[i]? = some (o', g') ∧ g ≤ g' := by
  have hi : i < t.slots.length := lt_length_of_getElem?_eq_some h
  rcases hslot : t.slots[(Nat.unpair hh).1]? with _ | ⟨o2, g2⟩
  · refine ⟨o, g, ?_, le_refl g⟩
    simp only [releaseHandle, hslot]
    exact h
  · match o2 with
    | none =>
      refine ⟨o, g, ?_, le_refl g⟩
      simp only [releaseHandle, hslot]
      exact h
    | some s2 =>
      by_cases hgen : g2 = (Nat.unpair hh).2
      · by_cases hidx : (Nat.unpair hh).1 = i
        · subst hidx
          have hog : some ((o : Option Srv), g) = some (some s2, g2) := h.symm.trans hslot
          have hgg : g = g2 := by
            simpa using congrArg (fun x => (x.getD (none, 0)).2) hog
          refine ⟨none, g2 + 1, ?_, by omega⟩
          simp only [releaseHandle, hslot, if_pos hgen]
          exact List.getElem?_set_self (by simpa using hi)
        · refine ⟨o, g, ?_, le_refl g⟩
          simp only [releaseHandle, hslot, if_pos hgen]
          rw [List.getElem?_set_ne hidx]
          exact h
      · refine ⟨o, g, ?_, le_refl g⟩
        simp only [releaseHandle, hslot, if_neg hgen]
        exact h

lemma gen_mono (t : HTable) (op : EngineOp) {i : Nat} {o : Option Srv} {g : Nat}
    (h : t.slots[i]? = some (o, g)) :
    ∃ o' g', (stepEngine t op).slots[i]? = some (o', g') ∧ g ≤ g' := by
  have hi : i < t.slots.length := lt_length_of_getElem?_eq_some h
  cases op with
  | create p =>
    cases hf : freeIdx t.slots with
    | some j =>
      by_cases hij : j = i
      · subst hij
        refine ⟨some ⟨p, ServerLifecycle.Listening⟩, g, ?_, le_refl g⟩
        simp only [stepEngine, createServer, allocateHandle, hf, h,
          Option.map_some', Option.getD_some]
        exact List.getElem?_set_self (by simpa using hi)
      · refine ⟨o, g, ?_, le_refl g⟩
        simp only [stepEngine, createServer, allocateHandle, hf]
        rw [List.getElem?_set_ne hij]
        exact h
    | none =>
      refine ⟨o, g, ?_, le_refl g⟩
      simp only [stepEngine, createServer, allocateHandle, hf]
      rw [List.getElem?_append_left hi]
      exact h
  | stop hh =>
    rcases hr : resolveHandle t hh with _ | srv
    · refine ⟨o, g, ?_, le_refl g⟩
      simp only [stepEngine, stopServer, hr]
      exact h
    · simp only [stepEngine, stopServer, hr]
      exact releaseHandle_gen_mono h

lemma stale_step {t : HTable} {h : Nat} (op : EngineOp) (hs : staleFor t h) :
    staleFor (stepEngine t op) h := by
  obtain ⟨o, g, hslot, hlt⟩ := hs
  obtain ⟨o', g', hslot', hle⟩ := gen_mono t op hslot
  exact ⟨o', g', hslot', Nat.lt_of_lt_of_le hlt hle⟩

lemma stale_run {t : HTable} {h : Nat} (ops : List EngineOp) (hs : staleFor t h) :
    staleFor (runEngine t ops) h := by
  induction ops generalizing t with
  | nil => exact hs
  | cons op ops ih => exact ih (stale_step op hs)

lemma resolve_of_stale {t : HTable} {h : Nat} (hs : staleFor t h) :
    resolveHandle t h = none := by
  obtain ⟨o, g, hslot, hlt⟩ := hs
  match o with
  | none => simp only [resolveHandle, hslot]
  | some s =>
    simp only [resolveHandle, hslot]
    rw [if_neg (by omega)]

lemma isRunning_of_resolve_none {t : HTable} {h : Nat}
    (hr : resolveHandle t h = none) : isRunning t h = false := by
  simp only [isRunning, hr]

lemma stopServer_of_resolve_none {t : HTable} {h : Nat}
    (hr : resolveHandle t h = none) :
    stopServer t h = (t, some HttpError.InvalidHandle) := by
  simp only [stopServer, hr]

lemma stale_after_release {t : HTable} {h : Nat} {s : Srv}
    (hres : resolveHandle t h = some s) : staleFor (releaseHandle t h) h := by
  rcases hslot : t.slots[(Nat.unpair h).1]? with _ | ⟨o2, g2⟩
  · simp only [resolveHandle, hslot] at hres
    exact Option.noConfusion hres
  · match o2 with
    | none =>
      simp only [resolveHandle, hslot] at hres
      exact Option.noConfusion hres
    | some s2 =>
      simp only [resolveHandle, hslot] at hres
      by_cases hgen : g2 = (Nat.unpair h).2
      · refine ⟨none, g2 + 1, ?_, by omega⟩
        simp only [releaseHandle, hslot, if_pos hgen]
        exact List.getElem?_set_self (by simpa using lt_length_of_getElem?_eq_some hslot)
      · rw [if_neg hgen] at hres
        exact Option.noConfusion hres

lemma allocate_avoids_stale {t : HTable} {h : Nat} (hs : staleFor t h) (s : Srv) :
    (allocateHandle t s).2 ≠ h := by
  obtain ⟨o, g, hslot, hlt⟩ := hs
  have hi : (Nat.unpair h).1 < t.slots.length := lt_length_of_getElem?_eq_some hslot
  cases hf : freeIdx t.slots with
  | some j =>
    obtain ⟨hj, gj, hgj⟩ := freeIdx_spec hf
    simp only [allocateHandle, hf, hgj, Option.map_some', Option.getD_some, encodeHandle]
    intro hc
    have hup := congrArg Nat.unpair hc
    rw [Nat.unpair_pair] at hup
    have hj1 : j = (Nat.unpair h).1 := by rw [← hup]
    have hg1 : gj = (Nat.unpair h).2 := by rw [← hup]
    rw [hj1, hslot] at hgj
    have hgg : g = gj := by
      simpa using congrArg (fun x => (x.getD (none, 0)).2) hgj
    omega
  | none =>
    simp only [allocateHandle, hf, encodeHandle]
    intro hc
    have hup := congrArg Nat.unpair hc
    rw [Nat.unpair_pair] at hup
    have hlen : t.slots.length = (Nat.unpair h).1 := by rw [← hup]
    omega

/-- C4: once `stopServer` succeeds on a handle, the handle is stale
forever: after any further sequence of engine operations (including
allocations that reuse the released slot), resolving it fails, `isRunning`
reports false, a further `stopServer` is a no-op reporting
`InvalidHandle`, and no future `createServer` ever hands out the same
integer again, because the release bumped the slot's generation. -/
theorem stop_invalidates_handle (t t' : HTable) (h : Nat) (s : Srv)
    (hres : resolveHandle t h = some s) (hstop : stopServer t h = (t', none)) :
    ∀ ops : List EngineOp,
      resolveHandle (runEngine t' ops) h = none ∧
      isRunning (runEngine t' ops) h = false ∧
      stopServer (runEngine t' ops) h = (runEngine t' ops, some HttpError.InvalidHandle) ∧
      ∀ p, (createServer (runEngine t' ops) p).2 ≠ h := by
  intro ops
  have ht' : t' = releaseHandle t h := by
    simp only [stopServer, hres] at hstop
    exact (congrArg Prod.fst hstop).symm
  have hstale : staleFor t' h := ht' ▸ stale_after_release hres
  have hrun : staleFor (runEngine t' ops) h := stale_run ops hstale
  have hnone := resolve_of_stale hrun
  exact ⟨hnone, isRunning_of_resolve_none hnone, stopServer_of_resolve_none hnone,
    fun p => allocate_avoids_stale hrun _⟩

/-- Witness for C4: create a server on an empty table, stop it, then run
one more allocation; the old handle stays invalid and is not reissued. -/
theorem stop_invalidates_handle_spot :
    resolveHandle (runEngine (stopServer (createServer ⟨[]⟩ 80).1
        (createServer ⟨[]⟩ 80).2).1 [EngineOp.create 81])
      (createServer ⟨[]⟩ 80).2 = none :=
  (stop_invalidates_handle (createServer ⟨[]⟩ 80).1
    (stopServer (createServer ⟨[]⟩ 80).1 (createServer ⟨[]⟩ 80).2).1
    (createServer ⟨[]⟩ 80).2 ⟨80, ServerLifecycle.Listening⟩
    (by decide) (by decide) [EngineOp.create 81]).1

/-- C5: the lifecycle contract of `isRunning`/`createServer`/`stopServer`:
`isRunning` is false on the empty engine (before any `createServer`), true
on the handle a successful `createServer` returns, false after `stopServer`
completes; a second `stopServer` on the same handle is a no-op reported as
`InvalidHandle`; and `isRunning` is true exactly on handles resolving to a
server in the `Listening` state. -/
theorem lifecycle_state_machine :
    (∀ h, isRunning ⟨[]⟩ h = false) ∧
    (∀ t p, isRunning (createServer t p).1 (createServer t p).2 = true) ∧
    (∀ t t' h s, resolveHandle t h = some s → stopServer t h = (t', none) →
      isRunning t' h = false ∧ stopServer t' h = (t', some HttpError.InvalidHandle)) ∧
    (∀ t h, isRunning t h = true ↔
      ∃ s, resolveHandle t h = some s ∧ s.lifecycle = ServerLifecycle.Listening) := by
  refine ⟨?_, ?_, ?_, ?_⟩
  · intro h
    apply isRunning_of_resolve_none
    simp [resolveHandle]
  · intro t p
    simp only [isRunning, createServer, resolve_allocate]
    rfl
  · intro t t' h s hres hstop
    have ht' : t' = releaseHandle t h := by
      simp only [stopServer, hres] at hstop
      exact (congrArg Prod.fst hstop).symm
    have hstale : staleFor t' h := ht' ▸ stale_after_release hres
    have hnone := resolve_of_stale hstale
    exact ⟨isRunning_of_resolve_none hnone, stopServer_of_resolve_none hnone⟩
  · intro t h
    simp only [isRunning]
    rcases hr : resolveHandle t h with _ | s
    · simp
    · simp only [beq_iff_eq]
      constructor
      · intro hl
        exact ⟨s, rfl, hl⟩
      · rintro ⟨s', hs', hl⟩
        cases hs'
        exact hl

/-- Witness for C5 on a concrete creation from the empty table. -/
theorem lifecycle_state_machine_spot :
    isRunning (createServer ⟨[]⟩ 8080).1 (createServer ⟨[]⟩ 8080).2 = true :=
  lifecycle_state_machine.2.1 ⟨[]⟩ 8080

/-! ### RequestContext registry (engine model for C1, C6, C7) -/

/-- Split a query-string token `key=value` at the first `=` (byte 61) and
percent-decode both sides; a token without `=` becomes a key with empty
value. -/
def parsePair (tok : List Nat) : List Nat × List Nat :=
  (urlDecode (tok.takeWhile (fun b => b != 61)),
   urlDecode ((tok.dropWhile (fun b => b != 61)).drop 1))

/-- Modelled from the spec (§3, §4.5): query parsing splits the query
string on `&` (byte 38) and percent-decodes keys and values. -/
def parseQuery (q : List Nat) : List (List Nat × List Nat) :=
  (q.splitOn 38).map parsePair

/-- The query part of a request path: everything after the first `?`
(byte 63), empty when there is none. -/
def queryOf (path : List Nat) : List Nat :=
  (path.dropWhile (fun b => b != 63)).drop 1

/-- Last-wins association lookup: the value of the last pair whose key
matches, reflecting "last value wins on duplicate keys" (spec §3). -/
def lookupLast : List (List Nat × List Nat) → List Nat → Option (List Nat)
  | [], _ => none
  | (k, v) :: rest, key =>
      match lookupLast rest key with
      | some v' => some v'
      | none => if k == key then some v else none

/-- Modelled from the spec (§3 RequestContext): the live state of one
in-flight request — request line data, headers (ordered, duplicates
preserved), body, parsed query parameters, the response-sent flag, and
the bytes of the response once sent. -/
structure ReqCtx where
  method : List Nat
  path : List Nat
  headers : List (List Nat × List Nat)
  body : List Nat
  queryParams : List (List Nat × List Nat)
  responseSent : Bool
  sentBytes : Option (Nat × List Nat × List Nat)
  deriving DecidableEq

/-- Context allocated when a request line and headers are fully parsed:
query parameters are resolved from the path, no response yet. -/
def mkRequestCtx (method path body : List Nat)
    (headers : List (List Nat × List Nat)) : ReqCtx :=
  { method := method, path := path, headers := headers, body := body,
    queryParams := parseQuery (queryOf path),
    responseSent := false, sentBytes := none }

/-- Modelled from the spec: the registry of in-flight RequestContexts,
keyed by numeric id. -/
structure ReqRegistry where
  ctxs : List (Nat × ReqCtx)
  deriving DecidableEq

/-- Resolve a request id to its context, if the id is known. -/
def lookupCtx (r : ReqRegistry) (id : Nat) : Option ReqCtx :=
  (r.ctxs.find? (fun p => p.1 == id)).map Prod.snd

/-- Replace the context stored under an id (other entries untouched). -/
def updateCtx (r : ReqRegistry) (id : Nat) (c : ReqCtx) : ReqRegistry :=
  ⟨r.ctxs.map (fun p => if p.1 == id then (id, c) else p)⟩

/-- Lowercase an ASCII byte, for case-insensitive header lookup. -/
def lowerByte (b : Nat) : Nat := if 65 ≤ b ∧ b ≤ 90 then b + 32 else b

/-- Lowercase a byte string. -/
def lowerBytes (s : List Nat) : List Nat := s.map lowerByte

/-- Modelled from the spec (§4.5): `getRequestPath` — a pure read; an
unknown or completed id yields the empty string. -/
def getRequestPath (r : ReqRegistry) (id : Nat) : List Nat :=
  match lookupCtx r id with
  | some c => if c.responseSent then [] else c.path
  | none => []

/-- Modelled from the spec (§4.5): `getRequestMethod`. -/
def getRequestMethod (r : ReqRegistry) (id : Nat) : List Nat :=
  match lookupCtx r id with
  | some c => if c.responseSent then [] else c.method
  | none => []

/-- Modelled from the spec (§4.5): `getRequestBody`. -/
def getRequestBody (r : ReqRegistry) (id : Nat) : List Nat :=
  match lookupCtx r id with
  | some c => if c.responseSent then [] else c.body
  | none => []

/-- Modelled from the spec (§4.5): `getRequestHeader` — case-insensitive
lookup among the ordered headers; empty on a miss, an unknown id, or a
completed id. -/
def getRequestHeader (r : ReqRegistry) (id : Nat) (name : List Nat) : List Nat :=
  match lookupCtx r id with
  | some c =>
      if c.responseSent then []
      else
        match c.headers.find? (fun p => lowerBytes p.1 == lowerBytes name) with
        | some p => p.2
        | none => []
  | none => []

/-- Modelled from the spec (§4.5, §8): `getQueryParam` — last-wins lookup
among the percent-decoded query parameters; empty on a miss, an unknown
id, or a completed id. -/
def getQueryParam (r : ReqRegistry) (id : Nat) (name : List Nat) : List Nat :=
  match lookupCtx r id with
  | some c => if c.responseSent then [] else (lookupLast c.queryParams name).getD []
  | none => []

/-- Modelled from the spec (§4.6, §7): `sendResponse` — the terminal
write.  Unknown id: `InvalidHandle`.  Already sent: `ResponseAlreadySent`,
no state change.  Otherwise the response bytes are recorded and the
context is marked sent. -/
def sendResponse (r : ReqRegistry) (id status : Nat) (contentType body : List Nat) :
    ReqRegistry × Option HttpError :=
  match lookupCtx r id with
  | none => (r, some HttpError.InvalidHandle)
  | some c =>
      if c.responseSent then (r, some HttpError.ResponseAlreadySent)
      else
        (updateCtx r id
          { c with responseSent := true, sentBytes := some (status, contentType, body) },
         none)

/-- Modelled from the spec (§4.6): `sendJsonResponse` is the terminal
write with content type fixed to `application/json`. -/
def sendJsonResponse (r : ReqRegistry) (id status : Nat) (jsonBody : List Nat) :
    ReqRegistry × Option HttpError :=
  sendResponse r id status (ascii "application/json") jsonBody

/-- Modelled from the spec (§4.6): `sendFileResponse` — terminal write
streaming a file from an abstract file system (path ↦ contents); a
missing or unreadable path yields a server-error response rather than a
crash, and the already-sent check comes first. -/
def sendFileResponse (fs : List (List Nat × List Nat)) (r : ReqRegistry)
    (id : Nat) (filePath : List Nat) : ReqRegistry × Option HttpError :=
  match lookupCtx r id with
  | none => (r, some HttpError.InvalidHandle)
  | some c =>
      if c.responseSent then (r, some HttpError.ResponseAlreadySent)
      else
        match fs.find? (fun p => p.1 == filePath) with
        | some p =>
            (updateCtx r id
              { c with responseSent := true,
                       sentBytes := some (200, ascii "application/octet-stream", p.2) },
             none)
        | none =>
            (updateCtx r id
              { c with responseSent := true,
                       sentBytes := some (500, ascii "text/plain", ascii "file error") },
             none)

/-- The three terminal send operations, for quantifying over them. -/
inductive TerminalOp
  | plain (status : Nat) (contentType body : List Nat)
  | json (status : Nat) (body : List Nat)
  | file (fs : List (List Nat × List Nat)) (filePath : List Nat)

/-- Run one terminal send on a request id. -/
def runTerminal (r : ReqRegistry) (id : Nat) : TerminalOp → ReqRegistry × Option HttpError
  | TerminalOp.plain st ct b => sendResponse r id st ct b
  | TerminalOp.json st b => sendJsonResponse r id st b
  | TerminalOp.file fs p => sendFileResponse fs r id p

/-- Run a sequence of terminal sends, collecting each outcome. -/
def runTerminalSeq (r : ReqRegistry) (id : Nat) :
    List TerminalOp → ReqRegistry × List (Option HttpError)
  | [] => (r, [])
  | op :: ops =>
      let step := runTerminal r id op
      let rest := runTerminalSeq step.1 id ops
      (rest.1, step.2 :: rest.2)

/-- The response bytes recorded for an id, if any. -/
def sentBytesOf (r : ReqRegistry) (id : Nat) : Option (Nat × List Nat × List Nat) :=
  match lookupCtx r id with
  | some c => c.sentBytes
  | none => none

lemma find?_update {l : List (Nat × ReqCtx)} {id : Nat} {p0 : Nat × ReqCtx} (c : ReqCtx)
    (h : l.find? (fun p => p.1 == id) = some p0) :
    (l.map (fun p => if p.1 == id then (id, c) else p)).find? (fun p => p.1 == id) =
      some (id, c) := by
  induction l with
  | nil => exact Option.noConfusion h
  | cons hd tl ih =>
    by_cases hh : hd.1 = id
    · rw [List.map_cons, if_pos (by simpa using hh)]
      exact List.find?_cons_of_pos _ (by simp)
    · rw [List.find?_cons_of_neg _ (by simpa using hh)] at h
      rw [List.map_cons, if_neg (by simpa using hh),
        List.find?_cons_of_neg _ (by simpa using hh)]
      exact ih h

lemma lookupCtx_updateCtx {r : ReqRegistry} {id : Nat} {c0 : ReqCtx} (c : ReqCtx)
    (h : lookupCtx r id = some c0) :
    lookupCtx (updateCtx r id c) id = some c := by
  rw [lookupCtx, Option.map_eq_some'] at h
  obtain ⟨p0, hp0, rfl⟩ := h
  simp only [lookupCtx, updateCtx]
  rw [find?_update c hp0]
  rfl

lemma runTerminal_already_sent {r : ReqRegistry} {id : Nat} {c : ReqCtx}
    (hl : lookupCtx r id = some c) (hs : c.responseSent = true) (op : TerminalOp) :
    runTerminal r id op = (r, some HttpError.ResponseAlreadySent) := by
  cases op with
  | plain st ct b => simp [runTerminal, sendResponse, hl, hs]
  | json st b => simp [runTerminal, sendJsonResponse, sendResponse, hl, hs]
  | file fs p => simp [runTerminal, sendFileResponse, hl, hs]

lemma runTerminal_success {r : ReqRegistry} {id : Nat} {op : TerminalOp} {r' : ReqRegistry}
    (h : runTerminal r id op = (r', none)) :
    ∃ c', lookupCtx r' id = some c' ∧ c'.responseSent = true := by
  cases op with
  | plain st ct b =>
    rcases hl : lookupCtx r id with _ | c
    · simp only [runTerminal, sendResponse, hl] at h
      exact absurd (congrArg Prod.snd h) (by simp)
    · cases hs : c.responseSent with
      | true =>
        simp only [runTerminal, sendResponse, hl, hs] at h
        exact absurd (congrArg Prod.snd h) (by simp)
      | false =>
        simp only [runTerminal, sendResponse, hl, hs, Bool.false_eq_true, if_false] at h
        injection h with h1 h2
        rw [← h1]
        exact ⟨_, lookupCtx_updateCtx _ hl, rfl⟩
  | json st b =>
    rcases hl : lookupCtx r id with _ | c
    · simp only [runTerminal, sendJsonResponse, sendResponse, hl] at h
      exact absurd (congrArg Prod.snd h) (by simp)
    · cases hs : c.responseSent with
      | true =>
        simp only [runTerminal, sendJsonResponse, sendResponse, hl, hs] at h
        exact absurd (congrArg Prod.snd h) (by simp)
      | false =>
        simp only [runTerminal, sendJsonResponse, sendResponse, hl, hs,
          Bool.false_eq_true, if_false] at h
        injection h with h1 h2
        rw [← h1]
        exact ⟨_, lookupCtx_updateCtx _ hl, rfl⟩
  | file fs p =>
    rcases hl : lookupCtx r id with _ | c
    · simp only [runTerminal, sendFileResponse, hl] at h
      exact absurd (congrArg Prod.snd h) (by simp)
    · cases hs : c.responseSent with
      | true =>
        simp only [runTerminal, sendFileResponse, hl, hs] at h
        exact absurd (congrArg Prod.snd h) (by simp)
      | false =>
        rcases hf : fs.find? (fun q => q.1 == p) with _ | q
        · simp only [runTerminal, sendFileResponse, hl, hs, hf,
            Bool.false_eq_true, if_false] at h
          injection h with h1 h2
          rw [← h1]
          exact ⟨_, lookupCtx_updateCtx _ hl, rfl⟩
        · simp only [runTerminal, sendFileResponse, hl, hs, hf,
            Bool.false_eq_true, if_false] at h
          injection h with h1 h2
          rw [← h1]
          exact ⟨_, lookupCtx_updateCtx _ hl, rfl⟩

/-- C1: once a terminal send succeeds for a request id, every further
terminal send on that id — by any of the three operations — returns
`ResponseAlreadySent`, leaves the registry (hence the already-sent
response bytes) unchanged, and every whole sequence of further terminal
sends fails the same way, so at most one terminal send succeeds per
RequestContext. -/
theorem response_already_sent (r r' : ReqRegistry) (id : Nat) (op : TerminalOp)
    (hfirst : runTerminal r id op = (r', none)) :
    (∀ op', runTerminal r' id op' = (r', some HttpError.ResponseAlreadySent)) ∧
    (∀ op', sentBytesOf (runTerminal r' id op').1 id = sentBytesOf r' id) ∧
    (∀ ops : List TerminalOp, runTerminalSeq r' id ops =
      (r', ops.map (fun _ => some HttpError.ResponseAlreadySent))) := by
  obtain ⟨c', hc', hs'⟩ := runTerminal_success hfirst
  have hstep : ∀ op', runTerminal r' id op' = (r', some HttpError.ResponseAlreadySent) :=
    fun op' => runTerminal_already_sent hc' hs' op'
  refine ⟨hstep, fun op' => by rw [hstep op'], ?_⟩
  intro ops
  induction ops with
  | nil => rfl
  | cons op' ops ih => simp [runTerminalSeq, hstep op', ih]

/-- Witness for C1: a registry with one live request; a successful
`sendResponse`, then a `sendJsonResponse` that is rejected. -/
theorem response_already_sent_spot :
    runTerminal (runTerminal (ReqRegistry.mk
        [(1, mkRequestCtx (ascii "GET") (ascii "/a") [] [])]) 1
        (TerminalOp.plain 200 (ascii "text/plain") (ascii "hi"))).1 1
      (TerminalOp.json 200 (ascii "ok")) =
    ((runTerminal (ReqRegistry.mk
        [(1, mkRequestCtx (ascii "GET") (ascii "/a") [] [])]) 1
        (TerminalOp.plain 200 (ascii "text/plain") (ascii "hi"))).1,
     some HttpError.ResponseAlreadySent) :=
  (response_already_sent
    (ReqRegistry.mk [(1, mkRequestCtx (ascii "GET") (ascii "/a") [] [])])
    (runTerminal (ReqRegistry.mk
        [(1, mkRequestCtx (ascii "GET") (ascii "/a") [] [])]) 1
        (TerminalOp.plain 200 (ascii "text/plain") (ascii "hi"))).1
    1 (TerminalOp.plain 200 (ascii "text/plain") (ascii "hi"))
    (by decide)).1 (TerminalOp.json 200 (ascii "ok"))

lemma takeWhile_append_stop {kraw vraw : List Nat} (hk : ∀ b ∈ kraw, b ≠ 61) :
    (kraw ++ 61 :: vraw).takeWhile (fun b => b != 61) = kraw := by
  induction kraw with
  | nil => simp [List.takeWhile_cons]
  | cons b ks ih =>
    have hb : (b != 61) = true := by
      simpa using hk b (List.mem_cons_self b ks)
    simp only [List.cons_append, List.takeWhile_cons, hb, if_true]
    rw [ih (fun x hx => hk x (List.mem_cons_of_mem b hx))]

lemma dropWhile_append_stop {kraw vraw : List Nat} (hk : ∀ b ∈ kraw, b ≠ 61) :
    (kraw ++ 61 :: vraw).dropWhile (fun b => b != 61) = 61 :: vraw := by
  induction kraw with
  | nil => simp [List.dropWhile_cons]
  | cons b ks ih =>
    have hb : (b != 61) = true := by
      simpa using hk b (List.mem_cons_self b ks)
    simp only [List.cons_append, List.dropWhile_cons, hb, if_true]
    exact ih (fun x hx => hk x (List.mem_cons_of_mem b hx))

lemma lookupLast_none {ps : List (List Nat × List Nat)} {k : List Nat}
    (h : ∀ p ∈ ps, p.1 ≠ k) : lookupLast ps k = none := by
  induction ps with
  | nil => rfl
  | cons hd tl ih =>
    match hd with
    | (k', v') =>
      rw [lookupLast, ih (fun x hx => h x (List.mem_cons_of_mem _ hx))]
      rw [if_neg (by simpa using h (k', v') (List.mem_cons_self _ _))]

/-- C6: query parameters are percent-decoded on both sides and duplicate
keys resolve to the last value: splitting a `key=value` token decodes key
and value; `lookupLast` returns the value of the last pair with the given
key; and on the live request for `/search?q=a%20b&q=c`, `getQueryParam`
returns `"c"`, while on `/x?q=a%20b` it decodes `%20` to a space. -/
theorem query_last_wins_decoded :
    (∀ kraw vraw : List Nat, (∀ b ∈ kraw, b ≠ 61) →
      parsePair (kraw ++ 61 :: vraw) = (urlDecode kraw, urlDecode vraw)) ∧
    (∀ (ps1 ps2 : List (List Nat × List Nat)) (k v : List Nat),
      (∀ p ∈ ps2, p.1 ≠ k) → lookupLast (ps1 ++ (k, v) :: ps2) k = some v) ∧
    getQueryParam (ReqRegistry.mk
      [(1, mkRequestCtx (ascii "GET") (ascii "/search?q=a%20b&q=c") [] [])]) 1
      (ascii "q") = ascii "c" ∧
    getQueryParam (ReqRegistry.mk
      [(1, mkRequestCtx (ascii "GET") (ascii "/x?q=a%20b") [] [])]) 1
      (ascii "q") = [97, 32, 98] := by
  refine ⟨?_, ?_, by decide, by decide⟩
  · intro kraw vraw hk
    rw [parsePair, takeWhile_append_stop hk, dropWhile_append_stop hk, List.drop_one]
    rfl
  · intro ps1 ps2 k v h2
    induction ps1 with
    | nil =>
      rw [List.nil_append, lookupLast, lookupLast_none h2, if_pos (by simp)]
    | cons hd tl ih =>
      match hd with
      | (k', v') =>
        rw [List.cons_append, lookupLast, ih]

/-- Witness for C6: splitting and decoding the concrete token
`q=a%20b`. -/
theorem query_last_wins_decoded_spot :
    parsePair (ascii "q" ++ 61 :: ascii "a%20b") = (ascii "q", [97, 32, 98]) :=
  query_last_wins_decoded.1 (ascii "q") (ascii "a%20b") (by decide)

/-- C7: reading with an id that never existed (`lookupCtx` misses) or
whose context has completed (response sent) yields the defined empty
string for every string-producing accessor — a total function result,
never a crash or null. -/
theorem dead_id_reads_empty (r : ReqRegistry) (id : Nat) (name : List Nat)
    (h : lookupCtx r id = none ∨ ∃ c, lookupCtx r id = some c ∧ c.responseSent = true) :
    getRequestPath r id = [] ∧ getRequestMethod r id = [] ∧
    getRequestHeader r id name = [] ∧ getRequestBody r id = [] ∧
    getQueryParam r id name = [] := by
  rcases h with h | ⟨c, hc, hs⟩
  · simp [getRequestPath, getRequestMethod, getRequestHeader, getRequestBody,
      getQueryParam, h]
  · simp [getRequestPath, getRequestMethod, getRequestHeader, getRequestBody,
      getQueryParam, hc, hs]

/-- Witness for C7 on the empty registry and a concrete unknown id. -/
theorem dead_id_reads_empty_spot :
    getRequestPath (ReqRegistry.mk []) 7 = [] ∧
    getRequestMethod (ReqRegistry.mk []) 7 = [] ∧
    getRequestHeader (ReqRegistry.mk []) 7 (ascii "Host") = [] ∧
    getRequestBody (ReqRegistry.mk []) 7 = [] ∧
    getQueryParam (ReqRegistry.mk []) 7 (ascii "Host") = [] :=
  dead_id_reads_empty (ReqRegistry.mk []) 7 (ascii "Host") (Or.inl rfl)

/-! ### WebSocketHub (engine model for C8) -/

/-- Modelled from the spec (§3, §4.7): one WebSocket connection — its
server-generated client id, whether its transport is still writable, and
the messages delivered to it. -/
structure WsConn where
  clientId : Nat
  alive : Bool
  inbox : List (List Nat)
  deriving DecidableEq

/-- Modelled from the spec (§3): an endpoint owns its connection set. -/
structure WsEndpoint where
  conns : List WsConn
  deriving DecidableEq

/-- One delivery attempt: a live transport accepts the frame; a dead one
fails, which the hub treats as this connection's removal. -/
def deliverWs (c : WsConn) (m : List Nat) : Option WsConn :=
  if c.alive then some { c with inbox := c.inbox ++ [m] } else none

/-- Modelled from the spec (§4.7): `broadcastWebSocketMessage` iterates a
point-in-time snapshot of the connection set, delivers to each, catches a
failed write by closing/removing that connection, and continues with the
remaining connections. -/
def broadcastWebSocketMessage (ep : WsEndpoint) (m : List Nat) : WsEndpoint :=
  ⟨ep.conns.filterMap (fun c => deliverWs c m)⟩

lemma length_filterMap_deliver (m : List Nat) :
    ∀ l : List WsConn,
      (l.filterMap (fun c => deliverWs c m)).length =
        (l.filter (fun c => c.alive)).length := by
  intro l
  induction l with
  | nil => rfl
  | cons c l ih =>
    cases hc : c.alive with
    | true =>
      rw [@List.filterMap_cons_some _ _ (fun c => deliverWs c m) c l _ (show
          deliverWs c m = some { c with inbox := c.inbox ++ [m] } by
          rw [deliverWs, if_pos hc])]
      rw [List.filter_cons, if_pos (by simpa using hc), List.length_cons,
        List.length_cons, ih]
    | false =>
      rw [@List.filterMap_cons_none _ _ (fun c => deliverWs c m) c l (show
          deliverWs c m = none by
          rw [deliverWs, if_neg (by simp [hc])])]
      rw [List.filter_cons, if_neg (by simp [hc]), ih]

/-- C8: broadcasting over the snapshot of an endpoint's connections (with
distinct client ids) delivers the message to every connection whose write
succeeds — regardless of failures elsewhere in the snapshot — while every
connection whose write fails is removed from the resulting connection
set, and the survivors are exactly the live connections. -/
theorem broadcast_partial_failure (ep : WsEndpoint) (m : List Nat)
    (hnodup : (ep.conns.map WsConn.clientId).Nodup) :
    (∀ c ∈ ep.conns, c.alive = true →
      { c with inbox := c.inbox ++ [m] } ∈ (broadcastWebSocketMessage ep m).conns) ∧
    (∀ c ∈ ep.conns, c.alive = false →
      ∀ c' ∈ (broadcastWebSocketMessage ep m).conns, c'.clientId ≠ c.clientId) ∧
    (broadcastWebSocketMessage ep m).conns.length =
      (ep.conns.filter (fun c => c.alive)).length := by
  refine ⟨?_, ?_, length_filterMap_deliver m ep.conns⟩
  · intro c hc hal
    rw [broadcastWebSocketMessage]
    rw [List.mem_filterMap]
    exact ⟨c, hc, by rw [deliverWs, if_pos hal]⟩
  · intro c hc hdead c' hc' hceq
    rw [broadcastWebSocketMessage, List.mem_filterMap] at hc'
    obtain ⟨a, ha, hda⟩ := hc'
    simp only [deliverWs] at hda
    cases haal : a.alive with
    | false =>
      rw [if_neg (by simp [haal])] at hda
      exact Option.noConfusion hda
    | true =>
      rw [if_pos haal] at hda
      have hid : a.clientId = c.clientId :=
        (congrArg WsConn.clientId (Option.some.inj hda)).trans hceq
      have hac : a = c := List.inj_on_of_nodup_map hnodup ha hc hid
      rw [hac] at haal
      rw [haal] at hdead
      exact Bool.noConfusion hdead

/-- Witness for C8 with three clients where the second one's transport is
closed: the first still receives the broadcast. -/
theorem broadcast_partial_failure_spot :
    ({ clientId := 1, alive := true, inbox := ([] : List (List Nat)) ++ [[104]] } : WsConn) ∈
      (broadcastWebSocketMessage
        (WsEndpoint.mk
          [{ clientId := 1, alive := true, inbox := [] },
           { clientId := 2, alive := false, inbox := [] },
           { clientId := 3, alive := true, inbox := [] }]) [104]).conns :=
  (broadcast_partial_failure
    (WsEndpoint.mk
      [{ clientId := 1, alive := true, inbox := [] },
       { clientId := 2, alive := false, inbox := [] },
       { clientId := 3, alive := true, inbox := [] }]) [104] (by decide)).1
    { clientId := 1, alive := true, inbox := [] } (by decide) rfl


/-! ### Router (engine model for C3)

Methods and paths are byte strings, consistent with the rest of the
file; `/` is byte 47 and `:` is byte 58. -/

/-- Modelled from the spec (§4.2): a compiled path-pattern segment —
either a literal segment matched exactly, or a `:name` parameter segment
capturing one path segment. -/
inductive Segment
  | lit (s : List Nat)
  | param (s : List Nat)
  deriving DecidableEq

/-- Modelled from the spec (§3 Route): (method, compiled pattern) mapped
to a handler name, kept in registration order. -/
structure Route where
  method : List Nat
  pattern : List Segment
  handler : List Nat
  deriving DecidableEq

/-- Uppercase an ASCII byte, for method normalization. -/
def upperByte (b : Nat) : Nat := if 97 ≤ b ∧ b ≤ 122 then b - 32 else b

/-- Uppercase a byte string. -/
def upperBytes (s : List Nat) : List Nat := s.map upperByte

/-- One segment against one path segment: literals exactly, parameters
always. -/
def segMatches : Segment → List Nat → Bool
  | Segment.lit s, t => s == t
  | Segment.param _, _ => true

/-- A compiled pattern against a split path, segment by segment. -/
def patMatches : List Segment → List (List Nat) → Bool
  | [], [] => true
  | sg :: pr, t :: tr => segMatches sg t && patMatches pr tr
  | _, _ => false

/-- A pattern is literal when it has no parameter segments. -/
def isLiteralPat (p : List Segment) : Bool :=
  p.all (fun sg => match sg with | Segment.lit _ => true | Segment.param _ => false)

/-- Split a path on `/`, dropping empty segments. -/
def splitPath (path : List Nat) : List (List Nat) :=
  (path.splitOn 47).filter (fun s => s != [])

/-- Compile one textual segment: a leading `:` makes a parameter. -/
def compileSegment : List Nat → Segment
  | 58 :: rest => Segment.param rest
  | s => Segment.lit s

/-- Modelled from the spec (§4.2): compile a path pattern into matcher
segments. -/
def compilePattern (p : List Nat) : List Segment :=
  (splitPath p).map compileSegment

/-- A route matches an incoming (method, split path): methods compare
case-insensitively (routes are stored uppercased), patterns segmentwise. -/
def routeMatches (method : List Nat) (segs : List (List Nat)) (r : Route) : Bool :=
  (r.method == upperBytes method) && patMatches r.pattern segs

/-- Modelled from the spec (§4.2, §3): `addRoute` normalizes the method
to uppercase and compiles the pattern; a duplicate (method, pattern) key
replaces the existing handler name, otherwise the route is appended. -/
def addRoute (rs : List Route) (method pathPattern handlerName : List Nat) : List Route :=
  if rs.any (fun r =>
      r.method == upperBytes method && r.pattern == compilePattern pathPattern)
  then rs.map (fun r =>
      if r.method == upperBytes method && r.pattern == compilePattern pathPattern
      then { r with handler := handlerName } else r)
  else rs ++ [{ method := upperBytes method, pattern := compilePattern pathPattern,
                handler := handlerName }]

/-- Modelled from the spec (§4.2): matching tries exact-literal candidates
first (in registration order), then parameterized candidates (again in
registration order). -/
def findRoute (rs : List Route) (method path : List Nat) : Option Route :=
  match rs.find? (fun r =>
      routeMatches method (splitPath path) r && isLiteralPat r.pattern) with
  | some r => some r
  | none => rs.find? (fun r => routeMatches method (splitPath path) r)

/-- C3: literal candidates beat parameterized ones — whenever some
matching route is literal, `findRoute` answers a matching literal route;
when no matching route is literal, the earliest-registered matching route
wins; and concretely, after registering `/items/:id` then
`/items/special`, a GET of `/items/special` selects the literal route's
handler. -/
theorem literal_route_precedence :
    (∀ (rs : List Route) (m path : List Nat),
      (∃ r ∈ rs, routeMatches m (splitPath path) r = true ∧ isLiteralPat r.pattern = true) →
      ∃ r, findRoute rs m path = some r ∧ isLiteralPat r.pattern = true ∧
        routeMatches m (splitPath path) r = true) ∧
    (∀ (rs : List Route) (m path : List Nat) (pre : List Route) (r : Route)
        (post : List Route),
      rs = pre ++ r :: post →
      routeMatches m (splitPath path) r = true →
      (∀ x ∈ rs, routeMatches m (splitPath path) x = true → isLiteralPat x.pattern = false) →
      (∀ x ∈ pre, routeMatches m (splitPath path) x = false) →
      findRoute rs m path = some r) ∧
    findRoute
      (addRoute (addRoute [] (ascii "GET") (ascii "/items/:id") (ascii "paramHandler"))
        (ascii "GET") (ascii "/items/special") (ascii "literalHandler"))
      (ascii "GET") (ascii "/items/special") =
      some { method := ascii "GET",
             pattern := [Segment.lit (ascii "items"), Segment.lit (ascii "special")],
             handler := ascii "literalHandler" } := by
  refine ⟨?_, ?_, by decide⟩
  · rintro rs m path ⟨r, hr, hm, hl⟩
    have hsome : (rs.find? (fun x =>
        routeMatches m (splitPath path) x && isLiteralPat x.pattern)).isSome := by
      rw [List.find?_isSome]
      exact ⟨r, hr, by simp [hm, hl]⟩
    obtain ⟨r', hr'⟩ := Option.isSome_iff_exists.mp hsome
    have hp := List.find?_some hr'
    rw [Bool.and_eq_true] at hp
    refine ⟨r', ?_, hp.2, hp.1⟩
    simp only [findRoute, hr']
  · intro rs m path pre r post hsplit hmr hnolit hpre
    have hlit : rs.find? (fun x =>
        routeMatches m (splitPath path) x && isLiteralPat x.pattern) = none := by
      rw [List.find?_eq_none]
      intro x hx
      rw [Bool.and_eq_true]
      rintro ⟨hx1, hx2⟩
      rw [hnolit x hx hx1] at hx2
      exact Bool.noConfusion hx2
    have hfind : rs.find? (fun x => routeMatches m (splitPath path) x) = some r := by
      rw [hsplit, List.find?_append]
      rw [List.find?_eq_none.mpr (fun x hx => by rw [hpre x hx]; exact Bool.noConfusion)]
      rw [Option.none_or]
      exact List.find?_cons_of_pos _ hmr
    simp only [findRoute, hlit, hfind]

/-- Witness for C3's general part: a parameterized and a literal route
both matching, with the literal one selected. -/
theorem literal_route_precedence_spot :
    ∃ r, findRoute
      [{ method := ascii "GET",
         pattern := [Segment.lit (ascii "items"), Segment.param (ascii "id")],
         handler := ascii "paramHandler" },
       { method := ascii "GET",
         pattern := [Segment.lit (ascii "items"), Segment.lit (ascii "special")],
         handler := ascii "literalHandler" }]
      (ascii "GET") (ascii "/items/special") = some r ∧ isLiteralPat r.pattern = true ∧
      routeMatches (ascii "GET") (splitPath (ascii "/items/special")) r = true :=
  literal_route_precedence.1
    [{ method := ascii "GET",
       pattern := [Segment.lit (ascii "items"), Segment.param (ascii "id")],
       handler := ascii "paramHandler" },
     { method := ascii "GET",
       pattern := [Segment.lit (ascii "items"), Segment.lit (ascii "special")],
       handler := ascii "literalHandler" }]
    (ascii "GET") (ascii "/items/special")
    ⟨{ method := ascii "GET",
       pattern := [Segment.lit (ascii "items"), Segment.lit (ascii "special")],
       handler := ascii "literalHandler" }, by decide, by decide, by decide⟩

end MicroScript
